import Mathlib

/-!
MRU tab tracking of `src/notebook.c`

A shallow embedding of the most-recently-used (MRU) document list and of the
tab-cycling gesture of the notebook: the file-scope variables `mru_docs`,
`mru_pos`, `switch_in_progress` and `switch_dialog` become the fields of a
record, every handler becomes a function on that record, and what the handlers
read from the rest of the application (validity flags, page count, file names)
is passed in as an `Env`.  The menu action that closes the documents to the
right of a tab is embedded over a list of tabs, `Tabs`.

Documents are identified by natural numbers; a `GeanyDocument *` is an
`Option Nat`, `none` being `NULL`.  The queue `mru_docs` only ever receives a
pointer through `g_queue_push_head` in `update_mru_docs_head`, behind the test
`if (doc)`, so its entries are documents, not nullable pointers.
-/

namespace Notebook

/-! ## Constants and types -/

/-- Capacity of the MRU list: `static const gsize MAX_MRU_DOCS = 20;`. -/
def MAX_MRU_DOCS : Nat := 20

/-- Number of values of a 32-bit `guint`; arithmetic on `mru_pos` and on the
loop counter of `update_filename_label` is taken modulo this number. -/
def GUINT_RANGE : Nat := 4294967296

/-- A `GeanyDocument *`: `none` is `NULL`. -/
abbrev DocPtr := Option Nat

/-- What the handlers read from outside `notebook.c` when they run. -/
structure Env where
  /-- The field `doc->is_valid`. -/
  is_valid : Nat → Bool
  /-- The field `doc->changed`. -/
  changed : Nat → Bool
  /-- The escaped base name of the document:
  `g_markup_escape_text(g_path_get_basename(DOC_FILENAME(doc)), -1)`. -/
  basename : Nat → String
  /-- The value of `gtk_notebook_get_n_pages(notebook)`. -/
  n_pages : Nat
  /-- The flag `main_status.quitting`. -/
  quitting : Bool

/-- The file-scope variables of the MRU tracker, with the notebook's current
document (what `document_get_current()` returns). -/
structure State where
  /-- The queue `mru_docs`, most recent first. -/
  mru_docs : List Nat
  /-- The cursor `mru_pos`. -/
  mru_pos : Nat
  /-- The flag `switch_in_progress`. -/
  switch_in_progress : Bool
  /-- The overlay `switch_dialog`: `none` is `NULL`, `some m` is a dialog whose
  label `switch_dialog_label` shows the markup `m`. -/
  switch_dialog : Option String
  /-- The document of the current notebook page. -/
  current : DocPtr
deriving DecidableEq

/-- Ways in which a handler fails to return. -/
inductive Fault where
  /-- The loop of `update_filename_label` computes `i % queue_length` with an
  empty queue. -/
  | div_by_zero
  /-- The loop of `update_filename_label` does not end. -/
  | hang
deriving DecidableEq

/-! ## The GLib queue operations used by the tracker -/

/-- The call `g_queue_remove(queue, data)`: removes the first entry equal to
`data`; a `NULL` argument matches no entry. -/
def g_queue_remove (q : List Nat) (doc : DocPtr) : List Nat :=
  match doc with
  | none => q
  | some d => q.erase d

/-- The call `g_queue_push_head(queue, data)`. -/
def g_queue_push_head (q : List Nat) (d : Nat) : List Nat := d :: q

/-- The call `g_queue_pop_tail(queue)`: drops the last entry. -/
def g_queue_pop_tail (q : List Nat) : List Nat := q.dropLast

/-- The call `g_queue_get_length(queue)`. -/
def g_queue_get_length (q : List Nat) : Nat := q.length

/-- The call `g_queue_peek_nth(queue, n)`: the entry at index `n`, `NULL` when
`n` is off the end. -/
def g_queue_peek_nth (q : List Nat) (n : Nat) : DocPtr := q[n]?

/-- The call `g_queue_clear(queue)`. -/
def g_queue_clear (_q : List Nat) : List Nat := []

/-- Modelled from the spec: the macro `DOC_VALID` of `document.h`, which is not
part of the sources at hand; the "is document still valid/open" check: the
pointer is not `NULL` and the document's `is_valid` flag is set. -/
def DOC_VALID (e : Env) (doc : DocPtr) : Bool :=
  match doc with
  | none => false
  | some d => e.is_valid d

/-! ## MRU list maintenance -/

/-- The function `update_mru_docs_head`, on the queue it updates. -/
def update_mru_docs_head (doc : DocPtr) (q : List Nat) : List Nat :=
  match doc with
  | none => q
  | some d =>
    let q1 := g_queue_remove q (some d)
    let q2 := g_queue_push_head q1 d
    if g_queue_get_length q2 > MAX_MRU_DOCS then g_queue_pop_tail q2 else q2

/-- The handler `on_notebook_switch_page`; `new` is
`document_get_from_page(page_num)`. It runs before the tab changes, so
`s.current` is still the previous document. -/
def on_notebook_switch_page (e : Env) (new : DocPtr) (s : State) : State :=
  let s1 :=
    if g_queue_get_length s.mru_docs == 0 && e.n_pages == 2 then
      { s with mru_docs := update_mru_docs_head s.current s.mru_docs }
    else s
  if !s1.switch_in_progress then
    { s1 with mru_docs := update_mru_docs_head new s1.mru_docs }
  else s1

/-- The handler `on_document_close`. -/
def on_document_close (e : Env) (doc : DocPtr) (s : State) : State :=
  if !e.quitting then
    let q := g_queue_remove s.mru_docs doc
    if e.n_pages == 2 then
      { s with mru_docs := g_queue_clear q }
    else
      { s with mru_docs := q }
  else s

/-! ## Key release -/

/-- Key value of the left Shift key; the key values are those of
`gdk/gdkkeysyms.h`. -/
def GDK_KEY_Shift_L : Nat := 0xffe1
/-- Key value of the right Shift key. -/
def GDK_KEY_Shift_R : Nat := 0xffe2
/-- Key value of the left Control key. -/
def GDK_KEY_Control_L : Nat := 0xffe3
/-- Key value of the right Control key. -/
def GDK_KEY_Control_R : Nat := 0xffe4
/-- Key value of the left Meta key. -/
def GDK_KEY_Meta_L : Nat := 0xffe7
/-- Key value of the right Meta key. -/
def GDK_KEY_Meta_R : Nat := 0xffe8
/-- Key value of the left Alt key. -/
def GDK_KEY_Alt_L : Nat := 0xffe9
/-- Key value of the right Alt key. -/
def GDK_KEY_Alt_R : Nat := 0xffea
/-- Key value of the left Super key. -/
def GDK_KEY_Super_L : Nat := 0xffeb
/-- Key value of the right Super key. -/
def GDK_KEY_Super_R : Nat := 0xffec
/-- Key value of the left Hyper key. -/
def GDK_KEY_Hyper_L : Nat := 0xffed
/-- Key value of the right Hyper key. -/
def GDK_KEY_Hyper_R : Nat := 0xffee

/-- The function `is_modifier_key`. -/
def is_modifier_key (keyval : Nat) : Bool :=
  if keyval = GDK_KEY_Shift_L then true
  else if keyval = GDK_KEY_Shift_R then true
  else if keyval = GDK_KEY_Control_L then true
  else if keyval = GDK_KEY_Control_R then true
  else if keyval = GDK_KEY_Meta_L then true
  else if keyval = GDK_KEY_Meta_R then true
  else if keyval = GDK_KEY_Alt_L then true
  else if keyval = GDK_KEY_Alt_R then true
  else if keyval = GDK_KEY_Super_L then true
  else if keyval = GDK_KEY_Super_R then true
  else if keyval = GDK_KEY_Hyper_L then true
  else if keyval = GDK_KEY_Hyper_R then true
  else false

/-- The handler `on_key_release_event`; `keyval` is `ev->keyval`. The calls of
`gtk_widget_destroy` and `document_check_disk_status` leave the tracker's
variables alone. -/
def on_key_release_event (keyval : Nat) (s : State) : State :=
  if s.switch_in_progress && is_modifier_key keyval then
    let s1 := { s with switch_in_progress := false }
    let s2 := if s1.switch_dialog.isSome then { s1 with switch_dialog := none } else s1
    let doc := s2.current
    let s3 := { s2 with mru_docs := update_mru_docs_head doc s2.mru_docs }
    { s3 with mru_pos := 0 }
  else s

/-! ## The overlay -/

/-- The text appended for a later entry of the overlay: the base name, inside a
red `span` when the document has unsaved changes. -/
def later_entry (e : Env) (doc : Nat) : String :=
  if e.changed doc then "<span color=\x27red\x27>" ++ e.basename doc ++ "</span>"
  else e.basename doc

/-- The `for` loop of `update_filename_label`, from the test of its condition
with counter `i` and the markup built so far. The counter and `mru_pos + 3` are
`guint` values. `fuel` bounds the number of tests of the condition. -/
def label_loop (e : Env) (q : List Nat) (mru_pos : Nat) :
    Nat → Nat → String → Except Fault String
  | 0, _, _ => .error .hang
  | fuel + 1, i, markup =>
    if i ≤ (mru_pos + 3) % GUINT_RANGE then
      if g_queue_get_length q = 0 then .error .div_by_zero
      else
        match g_queue_peek_nth q (i % g_queue_get_length q) with
        | none => .ok markup
        | some doc =>
          if i = mru_pos then
            label_loop e q mru_pos fuel ((i + 1) % GUINT_RANGE)
              ("<b>" ++ e.basename doc ++ "</b>")
          else if i % g_queue_get_length q = mru_pos then .ok markup
          else
            label_loop e q mru_pos fuel ((i + 1) % GUINT_RANGE)
              (markup ++ "\n" ++ later_entry e doc)
    else .ok markup

/-- Fuel given to the loop of `update_filename_label`. What the loop does next
depends on its 32-bit counter alone, so a run that tests its condition more
than `GUINT_RANGE` times has seen a counter value twice and never ends. -/
def LABEL_FUEL : Nat := GUINT_RANGE + 1

/-- The function `update_filename_label`: creates the overlay when there is
none and sets its label to the markup built by the loop. -/
def update_filename_label (e : Env) (s : State) : Except Fault State :=
  let s1 := if s.switch_dialog.isNone then { s with switch_dialog := some "" } else s
  match label_loop e s1.mru_docs s1.mru_pos LABEL_FUEL s1.mru_pos "" with
  | .error f => .error f
  | .ok markup => .ok { s1 with switch_dialog := some markup }

/-- The timer callback `on_switch_timeout`. -/
def on_switch_timeout (e : Env) (s : State) : Except Fault State :=
  if !s.switch_in_progress || s.switch_dialog.isSome then .ok s
  else update_filename_label e s

/-! ## Cycling -/

/-- A tab switch of the notebook to the page of `new`: the `switch-page` signal
runs `on_notebook_switch_page` before the tab changes, then that page is the
current one. -/
def switch_page (e : Env) (new : DocPtr) (s : State) : State :=
  { on_notebook_switch_page e new s with current := new }

/-- Modelled from the spec: `document_show_tab` of `document.c`, which is not
part of the sources at hand; "activate tab for document": it switches the
active tab to `doc`, which notifies the tab switch. -/
def document_show_tab (e : Env) (doc : DocPtr) (s : State) : State :=
  switch_page e doc s

/-- The function `notebook_switch_tablastused`. `utils_beep` leaves the
tracker's variables alone, and `g_timeout_add` only asks for a later call of
`on_switch_timeout`. -/
def notebook_switch_tablastused (e : Env) (s : State) : Except Fault State :=
  let switch_start := !s.switch_in_progress
  let s1 := { s with mru_pos := (s.mru_pos + 1) % GUINT_RANGE }
  let last_doc := g_queue_peek_nth s1.mru_docs s1.mru_pos
  let s2 := if !DOC_VALID e last_doc then { s1 with mru_pos := 0 } else s1
  let last_doc :=
    if !DOC_VALID e last_doc then g_queue_peek_nth s2.mru_docs s2.mru_pos else last_doc
  if !DOC_VALID e last_doc then .ok s2
  else
    let s3 := { s2 with switch_in_progress := true }
    let s4 := document_show_tab e last_doc s3
    if switch_start then .ok s4
    else update_filename_label e s4

/-- The function `notebook_switch_in_progress`. -/
def notebook_switch_in_progress (s : State) : Bool := s.switch_in_progress

/-- The tracker after `notebook_init`: `mru_docs = g_queue_new()` and the
initial values of the other variables; `current` is the notebook's current
document at that time. -/
def notebook_init (current : DocPtr) : State :=
  { mru_docs := [], mru_pos := 0, switch_in_progress := false,
    switch_dialog := none, current := current }

/-! ## The tracker as a transition system -/

/-- The events the tracker reacts to, each with what it reads from outside
when it runs. -/
inductive Event where
  /-- The keybinding calls `notebook_switch_tablastused`. -/
  | cycle_step (e : Env)
  /-- A key with value `keyval` is released. -/
  | key_release (keyval : Nat)
  /-- A timer set by a cycle step expires. -/
  | timer_expiry (e : Env)
  /-- The notebook switches to the page of `new`. -/
  | tab_switch (e : Env) (new : DocPtr)
  /-- The document `doc` is being closed. -/
  | document_close (e : Env) (doc : DocPtr)

/-- The tracker's reaction to one event. -/
def handle (s : State) : Event → Except Fault State
  | .cycle_step e => notebook_switch_tablastused e s
  | .key_release keyval => .ok (on_key_release_event keyval s)
  | .timer_expiry e => on_switch_timeout e s
  | .tab_switch e new => .ok (switch_page e new s)
  | .document_close e doc => .ok (on_document_close e doc s)

/-- The states the tracker can be in: those reached from `notebook_init` by
events whose handlers return. -/
inductive Reachable : State → Prop where
  | init (current : DocPtr) : Reachable (notebook_init current)
  | step {s s1 : State} (ev : Event) : Reachable s → handle s ev = .ok s1 → Reachable s1

/-- The tracker after the calls `update_mru_docs_head(d)` for the `d` of `docs`
in turn, from the queue `q`. -/
def record_activations (docs : List DocPtr) (q : List Nat) : List Nat :=
  docs.foldl (fun acc d => update_mru_docs_head d acc) q

/-- The tracker after `k` consecutive calls of `notebook_switch_tablastused`. -/
def cycle_steps (e : Env) : Nat → State → Except Fault State
  | 0, s => .ok s
  | k + 1, s =>
    match cycle_steps e k s with
    | .error f => .error f
    | .ok s1 => notebook_switch_tablastused e s1

/-! ## Predicates and states used to state the properties -/

/-- The invariant of the MRU list: within capacity and duplicate-free. -/
def MruInv (q : List Nat) : Prop := q.length ≤ MAX_MRU_DOCS ∧ q.Nodup

/-- The state a cycle step reaches before it shows the overlay, when it has
found the valid document `doc` at cursor `p`. -/
def stepped (s : State) (p : Nat) (doc : DocPtr) : State :=
  { s with mru_pos := p, switch_in_progress := true, current := doc }

/-- What holds in every reachable state: the MRU list is within capacity and
duplicate-free, an overlay exists only during a session, and the cursor is 0
outside a session. -/
def TrackerInv (s : State) : Prop :=
  MruInv s.mru_docs ∧
  (s.switch_dialog.isSome = true → s.switch_in_progress = true) ∧
  (s.switch_in_progress = false → s.mru_pos = 0)

/-- An environment with three pages in which every document is valid and
unchanged, and the document `d` is named by the digit `d`. -/
def env3 : Env :=
  { is_valid := fun _ => true, changed := fun _ => false,
    basename := fun d => toString d, n_pages := 3, quitting := false }

/-- The documents the overlay lists for the MRU list `l` and the cursor `p`:
those at the positions `p`, `p + 1`, ... taken modulo the length of `l`, four
of them at most and no position twice. -/
def overlay_candidates (l : List Nat) (p : Nat) : List Nat :=
  (List.range (min 4 l.length)).filterMap (fun j => l[(p + j) % l.length]?)

/-- The markup that lists `docs`: the first in bold, each later one on a line
of its own. -/
def overlay_markup (e : Env) : List Nat → String
  | [] => ""
  | d :: ds =>
    ds.foldl (fun m x => m ++ "\n" ++ later_entry e x) ("<b>" ++ e.basename d ++ "</b>")

/-- The tracker with the MRU list `[1, 2, 3]`, document 1 active, cursor 0 and
no session in progress. -/
def state123 : State :=
  { mru_docs := [1, 2, 3], mru_pos := 0, switch_in_progress := false,
    switch_dialog := none, current := some 1 }

/-- The tracker in the middle of a session, with cursor 2 in the MRU list
`[1, 2, 3]` and an overlay. -/
def state123_cycling : State :=
  { mru_docs := [1, 2, 3], mru_pos := 2, switch_in_progress := true,
    switch_dialog := some "<b>3</b>\n1\n2", current := some 3 }

/-- An environment with two pages in which every document is valid and
unchanged, and the document `d` is named by the digit `d`. -/
def env2 : Env :=
  { is_valid := fun _ => true, changed := fun _ => false,
    basename := fun d => toString d, n_pages := 2, quitting := false }

/-- An environment of an application that is quitting. -/
def env_quitting : Env :=
  { is_valid := fun _ => true, changed := fun _ => false,
    basename := fun d => toString d, n_pages := 3, quitting := true }

/-- The tracker during a session, after the MRU list has been cleared by the
close of one of two documents. -/
def state_cleared_cycling : State :=
  { mru_docs := [], mru_pos := 1, switch_in_progress := true,
    switch_dialog := none, current := some 1 }

/-- The tracker with six documents in the MRU list, the cursor at 4, and
document 2 changed. -/
def state_six : State :=
  { mru_docs := [1, 2, 3, 4, 5, 6], mru_pos := 4, switch_in_progress := true,
    switch_dialog := none, current := some 5 }

/-- An environment in which document 2 has unsaved changes. -/
def env_changed : Env :=
  { is_valid := fun _ => true, changed := fun d => d == 2,
    basename := fun d => toString d, n_pages := 6, quitting := false }

/-- The tracker when the second document is opened: document 1 is active and
nothing has been recorded. -/
def state_one_open : State :=
  { mru_docs := [], mru_pos := 0, switch_in_progress := false,
    switch_dialog := none, current := some 1 }

/-- The tracker's reaction to a sequence of events, the first fault ending
the run. -/
def run (s : State) : List Event → Except Fault State
  | [] => .ok s
  | ev :: evs =>
    match handle s ev with
    | .error f => .error f
    | .ok s1 => run s1 evs

/-- An environment with one page in which every document is valid and
unchanged, and the document `d` is named by the digit `d`. -/
def env1 : Env :=
  { is_valid := fun _ => true, changed := fun _ => false,
    basename := fun d => toString d, n_pages := 1, quitting := false }

/-! ## Closing the documents to the right of a tab -/

/-- The notebook as `on_close_documents_right_activate` sees it: the document
of each tab, from left to right, and the index of the current tab, -1 when
there is none. -/
structure Tabs where
  /-- The document shown by each page, in tab order. -/
  pages : List Nat
  /-- The value of `gtk_notebook_get_current_page`. -/
  current : Int
deriving DecidableEq

/-- What closing documents depends on outside `notebook.c`. -/
structure CloseEnv where
  /-- Whether `document_close` goes through for the document: it does not when
  the document has unsaved changes and the user cancels the prompt. -/
  confirms : Nat → Bool
  /-- The current page that the removal of a document's page leaves behind,
  as chosen by `notebook_remove_page` and the toolkit. -/
  next_current : Tabs → Nat → Int

/-- The call `gtk_notebook_get_n_pages(nb)`, a `gint`. -/
def gtk_notebook_get_n_pages (nb : Tabs) : Int := nb.pages.length

/-- The call `gtk_notebook_get_current_page(nb)`. -/
def gtk_notebook_get_current_page (nb : Tabs) : Int := nb.current

/-- The call `gtk_notebook_set_current_page(nb, page_num)`: a negative number
selects the last page, a number past the last page changes nothing. -/
def gtk_notebook_set_current_page (nb : Tabs) (page_num : Int) : Tabs :=
  if page_num < 0 then { nb with current := gtk_notebook_get_n_pages nb - 1 }
  else if page_num < gtk_notebook_get_n_pages nb then { nb with current := page_num }
  else nb

/-- Modelled from the spec: `document_get_notebook_page` of `document.c`, which
is not part of the sources at hand; the index of the tab of the document, -1
for a null document or one without tab. -/
def document_get_notebook_page (nb : Tabs) (doc : DocPtr) : Int :=
  match doc with
  | none => -1
  | some d => if d ∈ nb.pages then (nb.pages.indexOf d : Int) else -1

/-- Modelled from the spec: `document_get_from_page` of `document.c`, which is
not part of the sources at hand; "get document for tab index": the document of
the page, null when there is no such page. -/
def document_get_from_page (nb : Tabs) (page_num : Int) : DocPtr :=
  if page_num < 0 then none else nb.pages[page_num.toNat]?

/-- Modelled from the spec: `document_close` of `document.c`, which is not part
of the sources at hand; "close document": when the close goes through, the
page of the document is removed and the result is true; otherwise the
notebook is left alone and the result is false, as for a null document. -/
def document_close (c : CloseEnv) (doc : DocPtr) (nb : Tabs) : Bool × Tabs :=
  match doc with
  | none => (false, nb)
  | some d =>
    if c.confirms d then (true, { pages := nb.pages.erase d, current := c.next_current nb d })
    else (false, nb)

/-- The function `has_tabs_on_right`. -/
def has_tabs_on_right (nb : Tabs) (doc : DocPtr) : Bool :=
  let total_pages := gtk_notebook_get_n_pages nb
  let doc_page := document_get_notebook_page nb doc
  decide (total_pages > doc_page + 1)

/-- The `for` loop of `on_close_documents_right_activate`, from the test of its
condition with counter `i`. `fuel` bounds the number of tests of the
condition. -/
def close_right_loop (c : CloseEnv) : Nat → Int → Tabs → Option Tabs
  | 0, _, _ => none
  | fuel + 1, i, nb =>
    if i < gtk_notebook_get_n_pages nb then
      let r := document_close c (document_get_from_page nb i) nb
      if !r.1 then close_right_loop c fuel (i + 1) r.2
      else close_right_loop c fuel i r.2
    else some nb

/-- The function `on_close_documents_right_activate`; `none` stands for a loop
that does not end. Every test of the loop condition but the last is followed
by the removal of a page or by a step to the next page, so the loop is given
one test more than there are pages. -/
def on_close_documents_right_activate (c : CloseEnv) (doc : DocPtr) (nb : Tabs) :
    Option Tabs :=
  if !has_tabs_on_right nb doc then some nb
  else
    let current_page := gtk_notebook_get_current_page nb
    let doc_page := document_get_notebook_page nb doc
    match close_right_loop c (nb.pages.length + 1) (doc_page + 1) nb with
    | none => none
    | some nb1 => some (gtk_notebook_set_current_page nb1 (min current_page doc_page))

/-- A close environment in which every close goes through but that of
document 3, and the removal of a page makes the first page current. -/
def close_all_but_3 : CloseEnv :=
  { confirms := fun d => d != 3, next_current := fun _ _ => 0 }

/-- The notebook with the tabs of the documents 1, 2 and 3, the last one
current. -/
def tabs123 : Tabs := { pages := [1, 2, 3], current := 2 }

/-! ## Lemmas on the MRU list -/

theorem update_mru_docs_head_null (q : List Nat) : update_mru_docs_head none q = q := rfl

theorem update_mru_docs_head_some (d : Nat) (q : List Nat) :
    update_mru_docs_head (some d) q =
      if MAX_MRU_DOCS < (q.erase d).length + 1 then (d :: q.erase d).dropLast
      else d :: q.erase d := rfl

theorem update_mru_docs_head_take (d : Nat) (q : List Nat) (hlen : q.length ≤ MAX_MRU_DOCS) :
    update_mru_docs_head (some d) q = (d :: q.erase d).take MAX_MRU_DOCS := by
  rw [update_mru_docs_head_some]
  have hle : (q.erase d).length ≤ q.length := List.length_erase_le d q
  split
  · rw [List.dropLast_eq_take]
    congr 1
    simp only [List.length_cons]
    omega
  · rw [List.take_of_length_le]
    simp only [List.length_cons]
    omega

/-- The activated document is at the front, in front of entries of the old
list in their old order. -/
theorem update_mru_docs_head_shape (d : Nat) (q : List Nat) :
    ∃ t, update_mru_docs_head (some d) q = d :: t ∧ t.Sublist (q.erase d) := by
  rw [update_mru_docs_head_some]
  split
  · rename_i hfull
    cases hq : q.erase d with
    | nil => rw [hq] at hfull; simp [MAX_MRU_DOCS] at hfull
    | cons x xs => exact ⟨(x :: xs).dropLast, rfl, List.dropLast_sublist _⟩
  · exact ⟨q.erase d, rfl, List.Sublist.refl _⟩

theorem MruInv_update (doc : DocPtr) (q : List Nat) (h : MruInv q) :
    MruInv (update_mru_docs_head doc q) := by
  cases doc with
  | none => exact h
  | some d =>
    obtain ⟨hlen, hnd⟩ := h
    rw [update_mru_docs_head_take d q hlen]
    have hcons : (d :: q.erase d).Nodup :=
      List.nodup_cons.mpr ⟨fun hmem => (hnd.mem_erase_iff.mp hmem).1 rfl, hnd.erase d⟩
    exact ⟨by simp [List.length_take], hcons.sublist (List.take_sublist _ _)⟩

theorem MruInv_remove (doc : DocPtr) (q : List Nat) (h : MruInv q) :
    MruInv (g_queue_remove q doc) := by
  cases doc with
  | none => exact h
  | some d =>
    exact ⟨le_trans (List.length_erase_le d q) h.1, h.2.erase d⟩

theorem MruInv_nil : MruInv [] := ⟨Nat.zero_le _, List.nodup_nil⟩

/-! ## Lemmas on the handlers -/

theorem peek_valid_ne_nil (e : Env) (q : List Nat) (n : Nat)
    (h : DOC_VALID e (g_queue_peek_nth q n) = true) : g_queue_get_length q ≠ 0 := by
  intro h0
  have hq : q = [] := List.length_eq_zero.mp h0
  subst hq
  simp [g_queue_peek_nth, DOC_VALID] at h

/-- During a session, with a non-empty MRU list, the tab-switch notification
leaves the tracker's variables alone. -/
theorem on_notebook_switch_page_cycling (e : Env) (new : DocPtr) (s : State)
    (hp : s.switch_in_progress = true) (hq : g_queue_get_length s.mru_docs ≠ 0) :
    on_notebook_switch_page e new s = s := by
  simp [on_notebook_switch_page, hp, hq]

/-- A cycle step whose document at the incremented cursor is valid. -/
theorem tablastused_next (e : Env) (s : State)
    (h : DOC_VALID e (g_queue_peek_nth s.mru_docs ((s.mru_pos + 1) % GUINT_RANGE)) = true) :
    notebook_switch_tablastused e s =
      if s.switch_in_progress = false then
        .ok (stepped s ((s.mru_pos + 1) % GUINT_RANGE)
          (g_queue_peek_nth s.mru_docs ((s.mru_pos + 1) % GUINT_RANGE)))
      else
        update_filename_label e (stepped s ((s.mru_pos + 1) % GUINT_RANGE)
          (g_queue_peek_nth s.mru_docs ((s.mru_pos + 1) % GUINT_RANGE))) := by
  have hq := peek_valid_ne_nil e _ _ h
  simp only [notebook_switch_tablastused, h, document_show_tab, switch_page, Bool.not_true,
    Bool.false_eq_true, if_false]
  rw [on_notebook_switch_page_cycling e _ _ (by rfl) (by exact hq)]
  cases hsp : s.switch_in_progress <;> simp [stepped]

/-- A cycle step whose document at the incremented cursor is missing or
invalid, while the head of the MRU list is valid. -/
theorem tablastused_head (e : Env) (s : State)
    (h : DOC_VALID e (g_queue_peek_nth s.mru_docs ((s.mru_pos + 1) % GUINT_RANGE)) = false)
    (h0 : DOC_VALID e (g_queue_peek_nth s.mru_docs 0) = true) :
    notebook_switch_tablastused e s =
      if s.switch_in_progress = false then
        .ok (stepped s 0 (g_queue_peek_nth s.mru_docs 0))
      else
        update_filename_label e (stepped s 0 (g_queue_peek_nth s.mru_docs 0)) := by
  have hq := peek_valid_ne_nil e _ _ h0
  simp only [notebook_switch_tablastused, h, h0, document_show_tab, switch_page, Bool.not_false,
    Bool.not_true, Bool.false_eq_true, if_true, if_false]
  rw [on_notebook_switch_page_cycling e _ _ (by rfl) (by exact hq)]
  cases hsp : s.switch_in_progress <;> simp [stepped]

/-- A cycle step that finds no valid document. -/
theorem tablastused_none (e : Env) (s : State)
    (h : DOC_VALID e (g_queue_peek_nth s.mru_docs ((s.mru_pos + 1) % GUINT_RANGE)) = false)
    (h0 : DOC_VALID e (g_queue_peek_nth s.mru_docs 0) = false) :
    notebook_switch_tablastused e s = .ok { s with mru_pos := 0 } := by
  simp [notebook_switch_tablastused, h, h0]

/-- The overlay update only replaces the overlay, by one that shows the markup
built by the loop. -/
theorem update_filename_label_eq (e : Env) (s : State) :
    update_filename_label e s =
      (label_loop e s.mru_docs s.mru_pos LABEL_FUEL s.mru_pos "").map
        (fun m => { s with switch_dialog := some m }) := by
  obtain ⟨q, p, ip, d, c⟩ := s
  cases d <;>
    simp only [update_filename_label, Option.isNone_none, Option.isNone_some, if_true,
      Bool.false_eq_true, if_false] <;>
    cases label_loop e q p LABEL_FUEL p "" <;> rfl

theorem update_filename_label_ok (e : Env) (s s1 : State)
    (h : update_filename_label e s = .ok s1) :
    ∃ m, s1 = { s with switch_dialog := some m } := by
  rw [update_filename_label_eq] at h
  cases hl : label_loop e s.mru_docs s.mru_pos LABEL_FUEL s.mru_pos "" with
  | error f => rw [hl] at h; cases h
  | ok m =>
    rw [hl] at h
    injection h with h
    exact ⟨m, h.symm⟩

/-! ## Invariants of the reachable states -/

theorem on_notebook_switch_page_fields (e : Env) (new : DocPtr) (s : State) :
    ∃ q, on_notebook_switch_page e new s = { s with mru_docs := q } ∧
      (MruInv s.mru_docs → MruInv q) := by
  obtain ⟨q, p, ip, d, c⟩ := s
  unfold on_notebook_switch_page
  by_cases h1 : (g_queue_get_length q == 0 && e.n_pages == 2) = true <;>
    cases ip <;>
    simp only [h1, if_true, if_false, Bool.not_true, Bool.not_false, Bool.false_eq_true]
  · exact ⟨_, rfl, fun h => MruInv_update _ _ (MruInv_update _ _ h)⟩
  · exact ⟨_, rfl, fun h => MruInv_update _ _ h⟩
  · exact ⟨_, rfl, fun h => MruInv_update _ _ h⟩
  · exact ⟨_, rfl, fun h => h⟩

theorem on_document_close_fields (e : Env) (doc : DocPtr) (s : State) :
    ∃ q, on_document_close e doc s = { s with mru_docs := q } ∧
      (MruInv s.mru_docs → MruInv q) := by
  unfold on_document_close
  cases e.quitting
  · by_cases h2 : (e.n_pages == 2) = true
    · simp only [Bool.not_false, if_true, h2]
      exact ⟨_, rfl, fun _ => MruInv_nil⟩
    · simp only [Bool.not_false, if_true, h2, if_false, Bool.false_eq_true]
      exact ⟨_, rfl, fun h => MruInv_remove _ _ h⟩
  · exact ⟨s.mru_docs, rfl, fun h => h⟩

theorem on_key_release_event_eq (keyval : Nat) (s : State)
    (hp : s.switch_in_progress = true) (hk : is_modifier_key keyval = true) :
    on_key_release_event keyval s =
      { s with mru_docs := update_mru_docs_head s.current s.mru_docs, mru_pos := 0,
               switch_in_progress := false, switch_dialog := none } := by
  obtain ⟨q, p, ip, d, c⟩ := s
  cases d <;> simp_all [on_key_release_event]

theorem on_key_release_event_skip (keyval : Nat) (s : State)
    (h : (s.switch_in_progress && is_modifier_key keyval) = false) :
    on_key_release_event keyval s = s := by
  simp [on_key_release_event, h]

theorem TrackerInv_stepped (e : Env) (s s1 : State) (p : Nat) (doc : DocPtr)
    (hs : TrackerInv s)
    (h : (if s.switch_in_progress = false then .ok (stepped s p doc)
          else update_filename_label e (stepped s p doc)) = Except.ok s1) :
    TrackerInv s1 := by
  split at h
  · injection h with h
    subst h
    rename_i hsp
    refine ⟨hs.1, fun _ => rfl, fun hf => ?_⟩
    simp [stepped] at hf
  · obtain ⟨m, hm⟩ := update_filename_label_ok e _ _ h
    subst hm
    refine ⟨hs.1, fun _ => rfl, fun hf => ?_⟩
    simp [stepped] at hf

theorem TrackerInv_handle (s s1 : State) (ev : Event) (hs : TrackerInv s)
    (h : handle s ev = .ok s1) : TrackerInv s1 := by
  cases ev with
  | cycle_step e =>
    simp only [handle] at h
    cases hv : DOC_VALID e (g_queue_peek_nth s.mru_docs ((s.mru_pos + 1) % GUINT_RANGE))
    · cases hv0 : DOC_VALID e (g_queue_peek_nth s.mru_docs 0)
      · rw [tablastused_none e s hv hv0] at h
        injection h with h
        subst h
        exact ⟨hs.1, hs.2.1, fun _ => rfl⟩
      · rw [tablastused_head e s hv hv0] at h
        exact TrackerInv_stepped e s s1 _ _ hs h
    · rw [tablastused_next e s hv] at h
      exact TrackerInv_stepped e s s1 _ _ hs h
  | key_release keyval =>
    simp only [handle] at h
    injection h with h
    subst h
    cases hc : (s.switch_in_progress && is_modifier_key keyval)
    · rw [on_key_release_event_skip keyval s hc]
      exact hs
    · simp only [Bool.and_eq_true] at hc
      rw [on_key_release_event_eq keyval s hc.1 hc.2]
      exact ⟨MruInv_update _ _ hs.1, fun hd => by simp at hd, fun _ => rfl⟩
  | timer_expiry e =>
    simp only [handle, on_switch_timeout] at h
    split at h
    · injection h with h
      subst h
      exact hs
    · rename_i hc
      obtain ⟨m, hm⟩ := update_filename_label_ok e _ _ h
      subst hm
      simp only [Bool.or_eq_true, Bool.not_eq_true', not_or, Bool.not_eq_false] at hc
      exact ⟨hs.1, fun _ => hc.1, fun hf => by simp [hc.1] at hf⟩
  | tab_switch e new =>
    simp only [handle, switch_page] at h
    injection h with h
    subst h
    obtain ⟨q, hq, hinv⟩ := on_notebook_switch_page_fields e new s
    rw [hq]
    exact ⟨hinv hs.1, hs.2.1, hs.2.2⟩
  | document_close e doc =>
    simp only [handle] at h
    injection h with h
    subst h
    obtain ⟨q, hq, hinv⟩ := on_document_close_fields e doc s
    rw [hq]
    exact ⟨hinv hs.1, hs.2.1, hs.2.2⟩

theorem TrackerInv_reachable (s : State) (h : Reachable s) : TrackerInv s := by
  induction h with
  | init current => exact ⟨MruInv_nil, fun hd => by simp [notebook_init] at hd, fun _ => rfl⟩
  | step ev _ hstep ih => exact TrackerInv_handle _ _ ev ih hstep

theorem MruInv_record_activations (docs : List DocPtr) (q : List Nat) (h : MruInv q) :
    MruInv (record_activations docs q) := by
  induction docs generalizing q with
  | nil => exact h
  | cons d ds ih => exact ih _ (MruInv_update d q h)

/-! ## Lemmas on the overlay loop -/

theorem add_mod_ne_self (p j n : Nat) (hp : p < n) (hj : 0 < j) (hjn : j < n) :
    (p + j) % n ≠ p := by
  by_cases h : p + j < n
  · rw [Nat.mod_eq_of_lt h]
    omega
  · rw [Nat.mod_eq_sub_mod (by omega), Nat.mod_eq_of_lt (by omega)]
    omega

/-- The first test of the loop: the entry at the cursor is set in bold. -/
theorem label_loop_first (e : Env) (l : List Nat) (p fuel : Nat) (m : String) (doc : Nat)
    (hp : p < l.length) (hw : p + 4 < GUINT_RANGE) (hdoc : l[p]? = some doc) :
    label_loop e l p (fuel + 1) p m =
      label_loop e l p fuel (p + 1) ("<b>" ++ e.basename doc ++ "</b>") := by
  have h3 : (p + 3) % GUINT_RANGE = p + 3 := Nat.mod_eq_of_lt (by omega)
  have h1 : (p + 1) % GUINT_RANGE = p + 1 := Nat.mod_eq_of_lt (by omega)
  have hn : g_queue_get_length l ≠ 0 := by simp only [g_queue_get_length]; omega
  have hpk : g_queue_peek_nth l (p % g_queue_get_length l) = some doc := by
    simp only [g_queue_peek_nth, g_queue_get_length, Nat.mod_eq_of_lt hp, hdoc]
  rw [label_loop]
  simp only [h3, h1, hn, hpk, if_true, if_false, Nat.le_add_right]

/-- A later test of the loop, at a position not seen before: the entry is
appended on a new line. -/
theorem label_loop_later (e : Env) (l : List Nat) (p j fuel : Nat) (m : String) (doc : Nat)
    (hp : p < l.length) (hw : p + 4 < GUINT_RANGE) (hj : 0 < j) (hj3 : j ≤ 3)
    (hjn : j < l.length) (hdoc : l[(p + j) % l.length]? = some doc) :
    label_loop e l p (fuel + 1) (p + j) m =
      label_loop e l p fuel (p + (j + 1)) (m ++ "\n" ++ later_entry e doc) := by
  have h3 : (p + 3) % GUINT_RANGE = p + 3 := Nat.mod_eq_of_lt (by omega)
  have h1 : (p + j + 1) % GUINT_RANGE = p + (j + 1) := Nat.mod_eq_of_lt (by omega)
  have hn : g_queue_get_length l ≠ 0 := by simp only [g_queue_get_length]; omega
  have hle : p + j ≤ p + 3 := by omega
  have hne : p + j ≠ p := by omega
  have hmod : (p + j) % g_queue_get_length l ≠ p := add_mod_ne_self p j _ hp hj hjn
  have hpk : g_queue_peek_nth l ((p + j) % g_queue_get_length l) = some doc := by
    simp only [g_queue_peek_nth, g_queue_get_length, hdoc]
  rw [label_loop]
  simp only [h3, h1, hn, hpk, hle, hne, hmod, if_true, if_false]

/-- The test of the loop that leaves it: after four entries, or back at the
starting position. -/
theorem label_loop_last (e : Env) (l : List Nat) (p j fuel : Nat) (m : String)
    (hp : p < l.length) (hw : p + 4 < GUINT_RANGE) (hj : j = min 4 l.length) :
    label_loop e l p (fuel + 1) (p + j) m = .ok m := by
  have h3 : (p + 3) % GUINT_RANGE = p + 3 := Nat.mod_eq_of_lt (by omega)
  have hn : g_queue_get_length l ≠ 0 := by simp only [g_queue_get_length]; omega
  rw [label_loop]
  by_cases h4 : 4 ≤ l.length
  · have hj4 : j = 4 := by omega
    have hle : ¬ (p + j ≤ p + 3) := by omega
    simp only [h3, hle, if_false]
  · have hjn : j = l.length := by omega
    have hle : p + j ≤ p + 3 := by omega
    have hne : p + j ≠ p := by omega
    have hmod : (p + j) % g_queue_get_length l = p := by
      simp only [g_queue_get_length, hjn, Nat.add_mod_right, Nat.mod_eq_of_lt hp]
    simp only [h3, hn, hle, hne, hmod, if_true, if_false]
    split <;> rfl

/-- The loop from its `j`-th test on, `r` entries being left to list. -/
theorem label_loop_from (e : Env) (l : List Nat) (p : Nat)
    (hp : p < l.length) (hw : p + 4 < GUINT_RANGE) :
    ∀ (r j fuel : Nat) (m : String), 0 < j → j + r = min 4 l.length → r < fuel →
      label_loop e l p fuel (p + j) m =
        .ok (((List.range' j r).filterMap (fun i => l[(p + i) % l.length]?)).foldl
          (fun m x => m ++ "\n" ++ later_entry e x) m) := by
  intro r
  induction r with
  | zero =>
    intro j fuel m hj hjr hfuel
    obtain ⟨f, rfl⟩ : ∃ f, fuel = f + 1 := ⟨fuel - 1, by omega⟩
    rw [label_loop_last e l p j f m hp hw (by omega)]
    rfl
  | succ r ih =>
    intro j fuel m hj hjr hfuel
    obtain ⟨f, rfl⟩ : ∃ f, fuel = f + 1 := ⟨fuel - 1, by omega⟩
    have hlt : (p + j) % l.length < l.length := Nat.mod_lt _ (by omega)
    have hdoc : l[(p + j) % l.length]? = some (l.get ⟨(p + j) % l.length, hlt⟩) := by
      simp
    rw [label_loop_later e l p j f m _ hp hw hj (by omega) (by omega) hdoc,
      ih (j + 1) f _ (by omega) (by omega) (by omega)]
    simp only [List.range'_succ, List.filterMap_cons, hdoc, List.foldl_cons]

/-- With the cursor inside the MRU list, the loop returns the markup of the
overlay candidates. -/
theorem label_loop_eq (e : Env) (l : List Nat) (p : Nat)
    (hp : p < l.length) (hw : p + 4 < GUINT_RANGE) :
    label_loop e l p LABEL_FUEL p "" = .ok (overlay_markup e (overlay_candidates l p)) := by
  have hdoc : l[p]? = some (l.get ⟨p, hp⟩) := by simp
  obtain ⟨k, hk⟩ : ∃ k, min 4 l.length = k + 1 := ⟨min 4 l.length - 1, by omega⟩
  have hfuel : LABEL_FUEL = (GUINT_RANGE - 1) + 1 + 1 := rfl
  rw [hfuel, label_loop_first e l p _ "" _ hp hw hdoc,
    label_loop_from e l p hp hw k 1 _ _ (by omega) (by omega) (by simp [GUINT_RANGE]; omega)]
  simp only [overlay_candidates, hk, List.range_eq_range', List.range'_succ,
    List.filterMap_cons, Nat.add_zero, Nat.mod_eq_of_lt hp, hdoc, overlay_markup, zero_add]

theorem update_filename_label_inside (e : Env) (s : State)
    (hp : s.mru_pos < s.mru_docs.length) (hw : s.mru_pos + 4 < GUINT_RANGE) :
    update_filename_label e s =
      .ok { s with
        switch_dialog := some (overlay_markup e (overlay_candidates s.mru_docs s.mru_pos)) } := by
  rw [update_filename_label_eq, label_loop_eq e _ _ hp hw]
  rfl

/-! ## Lemmas on cycle steps -/

theorem DOC_VALID_peek (e : Env) (l : List Nat) (i : Nat)
    (hvalid : ∀ d ∈ l, e.is_valid d = true) (hi : i < l.length) :
    DOC_VALID e (g_queue_peek_nth l i) = true := by
  have hdoc : l[i]? = some (l.get ⟨i, hi⟩) := by simp
  simp only [g_queue_peek_nth, hdoc, DOC_VALID]
  exact hvalid _ (List.get_mem l i hi)

theorem DOC_VALID_peek_end (e : Env) (l : List Nat) (i : Nat) (hi : l.length ≤ i) :
    DOC_VALID e (g_queue_peek_nth l i) = false := by
  simp only [g_queue_peek_nth, List.getElem?_eq_none hi, DOC_VALID]

/-- The outcome of a cycle step that has found a valid document at the cursor
`p` inside the MRU list. -/
theorem stepped_outcome (e : Env) (s : State) (p : Nat) (doc : DocPtr)
    (hp : p < s.mru_docs.length) (hw : p + 4 < GUINT_RANGE) :
    ∃ s1, (if s.switch_in_progress = false then .ok (stepped s p doc)
            else update_filename_label e (stepped s p doc)) = Except.ok s1 ∧
      s1.mru_docs = s.mru_docs ∧ s1.mru_pos = p ∧ s1.switch_in_progress = true ∧
      s1.current = doc := by
  split
  · exact ⟨_, rfl, rfl, rfl, rfl, rfl⟩
  · exact ⟨_, update_filename_label_inside e (stepped s p doc) hp hw, rfl, rfl, rfl, rfl⟩

/-- One cycle step in an MRU list of valid documents, from a cursor inside the
list: the cursor moves on by one, back to 0 after the last entry. -/
theorem tablastused_all_valid (e : Env) (s : State)
    (hlen : s.mru_docs.length ≤ MAX_MRU_DOCS)
    (hvalid : ∀ d ∈ s.mru_docs, e.is_valid d = true)
    (hpos : s.mru_pos < s.mru_docs.length) :
    ∃ s1, notebook_switch_tablastused e s = .ok s1 ∧
      s1.mru_docs = s.mru_docs ∧
      s1.mru_pos = (s.mru_pos + 1) % s.mru_docs.length ∧
      s1.switch_in_progress = true ∧
      s1.current = s.mru_docs[(s.mru_pos + 1) % s.mru_docs.length]? := by
  have hM : MAX_MRU_DOCS = 20 := rfl
  have hW : GUINT_RANGE = 4294967296 := rfl
  have h1 : (s.mru_pos + 1) % GUINT_RANGE = s.mru_pos + 1 := Nat.mod_eq_of_lt (by omega)
  by_cases hlast : s.mru_pos + 1 < s.mru_docs.length
  · have hv := DOC_VALID_peek e s.mru_docs (s.mru_pos + 1) hvalid hlast
    rw [← h1] at hv
    rw [tablastused_next e s hv, h1, Nat.mod_eq_of_lt hlast]
    exact stepped_outcome e s _ _ hlast (by omega)
  · have hv := DOC_VALID_peek_end e s.mru_docs (s.mru_pos + 1) (by omega)
    rw [← h1] at hv
    have hv0 := DOC_VALID_peek e s.mru_docs 0 hvalid (by omega)
    have hmod : (s.mru_pos + 1) % s.mru_docs.length = 0 := by
      have : s.mru_pos + 1 = s.mru_docs.length := by omega
      rw [this, Nat.mod_self]
    rw [tablastused_head e s hv hv0, hmod]
    exact stepped_outcome e s _ _ (by omega) (by omega)

/-- Consecutive cycle steps in an MRU list of valid documents, from cursor 0:
after `j + 1` of them the cursor and the active document are at index
`(j + 1) mod n`. -/
theorem cycle_steps_all_valid (e : Env) (s : State)
    (hne : s.mru_docs ≠ []) (hlen : s.mru_docs.length ≤ MAX_MRU_DOCS)
    (hvalid : ∀ d ∈ s.mru_docs, e.is_valid d = true) (hpos : s.mru_pos = 0) (j : Nat) :
    ∃ s1, cycle_steps e (j + 1) s = .ok s1 ∧
      s1.mru_pos = (j + 1) % s.mru_docs.length ∧
      s1.current = s.mru_docs[(j + 1) % s.mru_docs.length]? ∧
      s1.switch_in_progress = true ∧
      s1.mru_docs = s.mru_docs := by
  have hn : 0 < s.mru_docs.length := List.length_pos.mpr hne
  induction j with
  | zero =>
    obtain ⟨s1, h1, hd, hp, hip, hc⟩ :=
      tablastused_all_valid e s hlen hvalid (by omega)
    rw [hpos] at hp hc
    exact ⟨s1, by simp only [cycle_steps]; exact h1, hp, hc, hip, hd⟩
  | succ j ih =>
    obtain ⟨t, ht, htp, _, _, htd⟩ := ih
    obtain ⟨s1, h1, hd, hp, hip, hc⟩ :=
      tablastused_all_valid e t (by rw [htd]; exact hlen) (by rw [htd]; exact hvalid)
        (by rw [htd, htp]; exact Nat.mod_lt _ hn)
    have hmod : (t.mru_pos + 1) % t.mru_docs.length = (j + 1 + 1) % s.mru_docs.length := by
      rw [htd, htp, Nat.add_mod (j + 1) 1, Nat.add_mod ((j + 1) % _) 1, Nat.mod_mod]
    rw [hmod] at hp hc
    refine ⟨s1, ?_, hp, ?_, hip, hd.trans htd⟩
    · rw [cycle_steps, ht]
      exact h1
    · rw [hc, htd]

/-- The tracker with the MRU list `[1, 2, 3]`, as reached by tab switches to
the documents 3, 2 and 1. -/
theorem state123_reachable : Reachable state123 :=
  Reachable.step (.tab_switch env3 (some 1))
    (Reachable.step (.tab_switch env3 (some 2))
      (Reachable.step (.tab_switch env3 (some 3)) (Reachable.init none) rfl) rfl) rfl

/-! ## Lemmas on the overlay candidates -/

/-- The overlay candidates are the entries at the positions `p + j` modulo the
length, for `j` below `min 4 n`. -/
theorem overlay_candidates_eq_map (l : List Nat) (p : Nat) (hne : l ≠ []) :
    overlay_candidates l p =
      (List.range (min 4 l.length)).map (fun j => l.getD ((p + j) % l.length) 0) := by
  have hn : 0 < l.length := List.length_pos.mpr hne
  unfold overlay_candidates
  rw [← List.filterMap_eq_map]
  congr 1
  funext j
  have hlt : (p + j) % l.length < l.length := Nat.mod_lt _ hn
  simp [List.getD_eq_getElem?_getD, List.getElem?_eq_getElem hlt]

theorem add_mod_inj (p n j1 j2 : Nat) (h1 : j1 < n) (h2 : j2 < n)
    (h : (p + j1) % n = (p + j2) % n) : j1 = j2 := by
  have hmod : j1 ≡ j2 [MOD n] := Nat.ModEq.add_left_cancel' p h
  exact Nat.ModEq.eq_of_lt_of_lt hmod h1 h2

/-! ## Lemmas on the division in the overlay loop -/

/-- With a non-empty MRU list the loop of `update_filename_label` does not
divide by zero. -/
theorem label_loop_no_div_by_zero (e : Env) (q : List Nat) (p : Nat) (hq : q ≠ []) :
    ∀ (fuel i : Nat) (m : String), label_loop e q p fuel i m ≠ .error .div_by_zero := by
  have hn : g_queue_get_length q ≠ 0 := by
    simpa [g_queue_get_length] using hq
  intro fuel
  induction fuel with
  | zero =>
    intro i m h
    simp [label_loop] at h
  | succ fuel ih =>
    intro i m
    rw [label_loop]
    by_cases hle : i ≤ (p + 3) % GUINT_RANGE
    · simp only [hle, hn, if_true, if_false]
      cases hpk : g_queue_peek_nth q (i % g_queue_get_length q) with
      | none => simp
      | some doc =>
        simp only
        by_cases hip : i = p
        · simp only [hip, if_true]
          exact ih _ _
        · by_cases him : i % g_queue_get_length q = p
          · simp [hip, him]
          · simp only [hip, him, if_false]
            exact ih _ _
    · simp [hle]

/-- With an empty MRU list the first test of the loop divides by zero, unless
`mru_pos + 3` wraps around. -/
theorem label_loop_div_by_zero (e : Env) (p fuel : Nat) (m : String)
    (hw : p ≤ (p + 3) % GUINT_RANGE) :
    label_loop e [] p (fuel + 1) p m = .error .div_by_zero := by
  rw [label_loop]
  simp [hw, g_queue_get_length]

/-- A cycle step never divides by zero: it refreshes the overlay only after it
has found a valid document in the MRU list. -/
theorem tablastused_no_div_by_zero (e : Env) (s : State) :
    notebook_switch_tablastused e s ≠ .error .div_by_zero := by
  have hstepped : ∀ (p : Nat) (doc : DocPtr), s.mru_docs ≠ [] →
      (if s.switch_in_progress = false then Except.ok (stepped s p doc)
        else update_filename_label e (stepped s p doc)) ≠ .error .div_by_zero := by
    intro p doc hq
    split
    · simp
    · rw [update_filename_label_eq]
      intro h
      cases hl : label_loop e (stepped s p doc).mru_docs (stepped s p doc).mru_pos
          LABEL_FUEL (stepped s p doc).mru_pos "" with
      | ok m => rw [hl] at h; cases h
      | error f =>
        rw [hl] at h
        have hf : f = .div_by_zero := by
          simpa [Except.map] using h
        rw [hf] at hl
        exact label_loop_no_div_by_zero e _ _ hq _ _ _ hl
  cases hv : DOC_VALID e (g_queue_peek_nth s.mru_docs ((s.mru_pos + 1) % GUINT_RANGE))
  · cases hv0 : DOC_VALID e (g_queue_peek_nth s.mru_docs 0)
    · rw [tablastused_none e s hv hv0]
      simp
    · rw [tablastused_head e s hv hv0]
      exact hstepped _ _
        (fun h => peek_valid_ne_nil e _ _ hv0 (by rw [h]; rfl))
  · rw [tablastused_next e s hv]
    exact hstepped _ _
      (fun h => peek_valid_ne_nil e _ _ hv (by rw [h]; rfl))

/-- A timer expiry during a session without overlay divides by zero when the
MRU list is empty. -/
theorem on_switch_timeout_div_by_zero (e : Env) (s : State)
    (hp : s.switch_in_progress = true) (hd : s.switch_dialog = none)
    (hq : s.mru_docs = []) (hw : s.mru_pos ≤ (s.mru_pos + 3) % GUINT_RANGE) :
    on_switch_timeout e s = .error .div_by_zero := by
  have hfuel : LABEL_FUEL = GUINT_RANGE + 1 := rfl
  simp only [on_switch_timeout, hp, hd, Bool.not_true, Option.isSome_none, Bool.or_self,
    Bool.false_eq_true, if_false]
  rw [update_filename_label_eq, hq, hfuel, label_loop_div_by_zero e _ _ _ hw]
  rfl

/-- A run of events from a reachable state ends in a reachable state. -/
theorem run_reachable (evs : List Event) :
    ∀ s s1 : State, Reachable s → run s evs = .ok s1 → Reachable s1 := by
  induction evs with
  | nil =>
    intro s s1 hs h
    simp only [run] at h
    injection h with h
    exact h ▸ hs
  | cons ev evs ih =>
    intro s s1 hs h
    simp only [run] at h
    cases hh : handle s ev with
    | error f => rw [hh] at h; cases h
    | ok s2 =>
      rw [hh] at h
      exact ih s2 s1 (Reachable.step ev hs hh) h

/-! ## Lemmas on closing the documents to the right -/

theorem document_get_from_page_append (L R : List Nat) (d : Nat) (cur : Int) :
    document_get_from_page { pages := L ++ d :: R, current := cur } (L.length : Int) = some d := by
  simp [document_get_from_page, List.getElem_append_right]

/-- The loop ends: each test of its condition that does not leave it removes a
page or moves on to the next one. -/
theorem close_right_loop_terminates (c : CloseEnv) :
    ∀ (fuel : Nat) (i : Int) (nb : Tabs), 0 ≤ i → nb.pages.length - i.toNat < fuel →
      ∃ nb1, close_right_loop c fuel i nb = some nb1 := by
  intro fuel
  induction fuel with
  | zero =>
    intro i nb _ h
    omega
  | succ fuel ih =>
    intro i nb hi h
    rw [close_right_loop]
    by_cases hlt : i < gtk_notebook_get_n_pages nb
    · simp only [hlt, if_true]
      have hidx : i.toNat < nb.pages.length := by
        simp only [gtk_notebook_get_n_pages] at hlt
        omega
      have hdoc : document_get_from_page nb i = some (nb.pages.get ⟨i.toNat, hidx⟩) := by
        have hneg : ¬ i < 0 := by omega
        simp [document_get_from_page, hneg, List.getElem?_eq_getElem hidx]
      rw [hdoc]
      cases hc : c.confirms (nb.pages.get ⟨i.toNat, hidx⟩)
      · simp only [document_close, hc, Bool.false_eq_true, if_false, Bool.not_false, if_true]
        exact ih (i + 1) nb (by omega) (by omega)
      · simp only [document_close, hc, if_true, Bool.not_true, Bool.false_eq_true, if_false]
        refine ih i _ hi ?_
        have hmem : nb.pages.get ⟨i.toNat, hidx⟩ ∈ nb.pages := List.get_mem _ _ _
        simp only [List.length_erase_of_mem hmem]
        omega
    · simp only [hlt, if_false]
      exact ⟨nb, rfl⟩

/-- The loop, started behind the pages `L`, keeps them and removes from the
pages `R` to their right those whose close goes through. -/
theorem close_right_loop_pages (c : CloseEnv) (R : List Nat) :
    ∀ (L : List Nat) (fuel : Nat) (cur : Int), (L ++ R).Nodup → R.length < fuel →
      ∃ cur1, close_right_loop c fuel (L.length : Int) { pages := L ++ R, current := cur } =
        some { pages := L ++ R.filter (fun d => !c.confirms d), current := cur1 } := by
  induction R with
  | nil =>
    intro L fuel cur _ hfuel
    obtain ⟨f, rfl⟩ : ∃ f, fuel = f + 1 := ⟨fuel - 1, by simp at hfuel; omega⟩
    refine ⟨cur, ?_⟩
    rw [close_right_loop]
    simp [gtk_notebook_get_n_pages]
  | cons d R ih =>
    intro L fuel cur hnd hfuel
    obtain ⟨f, rfl⟩ : ∃ f, fuel = f + 1 := ⟨fuel - 1, by omega⟩
    have hlt : (L.length : Int) <
        gtk_notebook_get_n_pages { pages := L ++ d :: R, current := cur } := by
      simp only [gtk_notebook_get_n_pages, List.length_append, List.length_cons]
      omega
    have hdL : d ∉ L := by
      intro hmem
      have := List.nodup_append.mp hnd
      exact this.2.2 hmem (List.mem_cons_self d R)
    rw [close_right_loop]
    simp only [hlt, if_true, document_get_from_page_append]
    cases hc : c.confirms d
    · simp only [document_close, hc, Bool.false_eq_true, if_false, Bool.not_false, if_true]
      have hnd2 : ((L ++ [d]) ++ R).Nodup := by simpa using hnd
      obtain ⟨cur1, h1⟩ := ih (L ++ [d]) f cur hnd2 (by simp at hfuel; omega)
      refine ⟨cur1, ?_⟩
      have hlen : ((L ++ [d]).length : Int) = (L.length : Int) + 1 := by simp
      rw [hlen] at h1
      simp only [List.append_assoc, List.singleton_append] at h1
      rw [h1]
      simp [List.filter_cons, hc]
    · simp only [document_close, hc, if_true, Bool.not_true, Bool.false_eq_true, if_false]
      have herase : (L ++ d :: R).erase d = L ++ R := by
        rw [List.erase_append_right _ hdL, List.erase_cons_head]
      have hnd2 : (L ++ R).Nodup := by
        have hsub : (L ++ R).Sublist (L ++ d :: R) :=
          List.Sublist.append (List.Sublist.refl L) (List.sublist_cons_self d R)
        exact hnd.sublist hsub
      rw [herase]
      obtain ⟨cur1, h1⟩ := ih L f _ hnd2 (by simp at hfuel; omega)
      refine ⟨cur1, ?_⟩
      rw [h1]
      simp [List.filter_cons, hc]
theorem document_get_notebook_page_ge (nb : Tabs) (doc : DocPtr) :
    -1 ≤ document_get_notebook_page nb doc := by
  unfold document_get_notebook_page
  cases doc with
  | none => simp
  | some d =>
    simp only
    split <;> omega

/-- The function returns: its loop ends within the tests it is given. -/
theorem on_close_documents_right_activate_terminates (c : CloseEnv) (doc : DocPtr)
    (nb : Tabs) : ∃ nb1, on_close_documents_right_activate c doc nb = some nb1 := by
  unfold on_close_documents_right_activate
  cases has_tabs_on_right nb doc
  · exact ⟨nb, rfl⟩
  · have hge := document_get_notebook_page_ge nb doc
    obtain ⟨nb1, h1⟩ := close_right_loop_terminates c (nb.pages.length + 1)
      (document_get_notebook_page nb doc + 1) nb (by omega) (by omega)
    simp only [Bool.not_true, Bool.false_eq_true, if_false, h1]
    exact ⟨_, rfl⟩

/-- What the function does for a document with a tab and tabs to its right, in
a notebook that shows each document once: the tabs up to that of the document
stay, the tabs to its right whose close goes through are removed, and the
current page is the smaller of the old current page and the page of the
document. -/
theorem on_close_documents_right_activate_eq (c : CloseEnv) (d : Nat) (nb : Tabs)
    (hnd : nb.pages.Nodup) (hmem : d ∈ nb.pages)
    (hright : has_tabs_on_right nb (some d) = true) (hcur : 0 ≤ nb.current) :
    on_close_documents_right_activate c (some d) nb =
      some { pages := nb.pages.take (nb.pages.indexOf d + 1) ++
                        (nb.pages.drop (nb.pages.indexOf d + 1)).filter
                          (fun x => !c.confirms x),
             current := min nb.current (nb.pages.indexOf d) } := by
  obtain ⟨pages, cur⟩ := nb
  simp only at hnd hmem hcur
  have hpage : document_get_notebook_page { pages := pages, current := cur } (some d) =
      (pages.indexOf d : Int) := by
    simp [document_get_notebook_page, hmem]
  have hlen : pages.indexOf d + 1 < pages.length := by
    simp only [has_tabs_on_right, hpage, gtk_notebook_get_n_pages, decide_eq_true_eq] at hright
    omega
  have htake : (pages.take (pages.indexOf d + 1)).length = pages.indexOf d + 1 := by
    rw [List.length_take]
    omega
  obtain ⟨cur1, h1⟩ := close_right_loop_pages c (pages.drop (pages.indexOf d + 1))
    (pages.take (pages.indexOf d + 1)) (pages.length + 1) cur
    (by rw [List.take_append_drop]; exact hnd)
    (by rw [List.length_drop]; omega)
  rw [List.take_append_drop, htake] at h1
  have hidx : ((pages.indexOf d + 1 : Nat) : Int) = (pages.indexOf d : Int) + 1 := by
    push_cast
    rfl
  rw [hidx] at h1
  simp only [on_close_documents_right_activate, hright, Bool.not_true, Bool.false_eq_true,
    if_false, hpage, h1, gtk_notebook_get_current_page]
  have hnneg : ¬ (min cur (pages.indexOf d : Int) < 0) := by omega
  have hin : min cur (pages.indexOf d : Int) <
      gtk_notebook_get_n_pages
        { pages := pages.take (pages.indexOf d + 1) ++
            (pages.drop (pages.indexOf d + 1)).filter (fun x => !c.confirms x),
          current := cur1 } := by
    simp only [gtk_notebook_get_n_pages, List.length_append, htake]
    omega
  simp only [gtk_notebook_set_current_page, hnneg, hin, if_true, if_false]
/-- The current tab after the function: when the current tab was that of the
document or to its left, it is still current; when it was to the right of the
document, the tab of the document is current, whether or not the old current
tab has been closed. -/
theorem on_close_documents_right_activate_current (c : CloseEnv) (d : Nat) (nb : Tabs)
    (hnd : nb.pages.Nodup) (hmem : d ∈ nb.pages)
    (hright : has_tabs_on_right nb (some d) = true) (hcur : 0 ≤ nb.current) :
    ∃ nb1, on_close_documents_right_activate c (some d) nb = some nb1 ∧
      (nb.current ≤ nb.pages.indexOf d →
        nb1.current = nb.current ∧
        document_get_from_page nb1 nb1.current = document_get_from_page nb nb.current) ∧
      ((nb.pages.indexOf d : Int) < nb.current →
        nb1.current = nb.pages.indexOf d ∧
        document_get_from_page nb1 nb1.current = some d) := by
  refine ⟨_, on_close_documents_right_activate_eq c d nb hnd hmem hright hcur, ?_, ?_⟩
  · intro hle
    have hmin : min nb.current (nb.pages.indexOf d : Int) = nb.current := min_eq_left hle
    have hneg : ¬ nb.current < 0 := by omega
    have hlt : nb.current.toNat < (nb.pages.take (nb.pages.indexOf d + 1)).length := by
      have := List.indexOf_lt_length.mpr hmem
      rw [List.length_take]
      omega
    refine ⟨hmin, ?_⟩
    simp only [hmin, document_get_from_page, hneg, if_false]
    rw [List.getElem?_append_left hlt, List.getElem?_take_of_lt (by omega)]
  · intro hlt
    have hmin : min nb.current (nb.pages.indexOf d : Int) = nb.pages.indexOf d :=
      min_eq_right (le_of_lt hlt)
    have hneg : ¬ ((nb.pages.indexOf d : Int) < 0) := by omega
    have hlen : nb.pages.indexOf d < (nb.pages.take (nb.pages.indexOf d + 1)).length := by
      have := List.indexOf_lt_length.mpr hmem
      rw [List.length_take]
      omega
    refine ⟨hmin, ?_⟩
    simp only [hmin, document_get_from_page, hneg, if_false, Int.toNat_ofNat]
    rw [List.getElem?_append_left hlen, List.getElem?_take_of_succ, List.getElem?_indexOf hmem]

/-! ## The claims -/

/-- C1: in every state reachable from the empty MRU list of `notebook_init` by
cycle steps, key releases, timer expiries, tab switches and document closes,
the MRU list holds at most 20 documents and no document twice; the same holds
after every sequence of `update_mru_docs_head` calls from the empty list. -/
theorem mru_list_bounded_and_duplicate_free :
    (∀ s : State, Reachable s →
      s.mru_docs.length ≤ 20 ∧ s.mru_docs.Nodup) ∧
    (∀ docs : List DocPtr,
      (record_activations docs []).length ≤ 20 ∧ (record_activations docs []).Nodup) :=
  ⟨fun s h => (TrackerInv_reachable s h).1,
   fun docs => MruInv_record_activations docs [] MruInv_nil⟩

/-- C1 at a concrete reachable state: after tab switches to the documents 1
and 2 the list is `[2, 1]`. -/
theorem mru_list_bounded_and_duplicate_free_witness :
    Reachable { mru_docs := [2, 1], mru_pos := 0, switch_in_progress := false,
                switch_dialog := none, current := some 2 } ∧
    ([2, 1].length ≤ 20 ∧ [2, 1].Nodup) ∧
    ((record_activations [some 1, some 2, none, some 1] []).length ≤ 20 ∧
      (record_activations [some 1, some 2, none, some 1] []).Nodup) :=
  ⟨Reachable.step (.tab_switch env3 (some 2))
      (Reachable.step (.tab_switch env3 (some 1)) (Reachable.init none) rfl) rfl,
   mru_list_bounded_and_duplicate_free.1 _
     (Reachable.step (.tab_switch env3 (some 2))
      (Reachable.step (.tab_switch env3 (some 1)) (Reachable.init none) rfl) rfl),
   mru_list_bounded_and_duplicate_free.2 [some 1, some 2, none, some 1]⟩

/-- C2: for a duplicate-free MRU list `l` of at most 20 documents and a
document `d`, `update_mru_docs_head(d)` leaves the first 20 entries of `d`
followed by `l` without `d`: `d` is at the front, the other documents keep
their relative order, nothing is dropped when `d` was in `l`, and when `d` was
absent and `l` was full exactly the last entry is dropped. For a null document
the list is unchanged. -/
theorem update_mru_docs_head_moves_to_front (l : List Nat) (d : Nat)
    (hnd : l.Nodup) (hlen : l.length ≤ 20) :
    update_mru_docs_head (some d) l = (d :: l.filter (fun x => x != d)).take 20 ∧
    (update_mru_docs_head (some d) l).head? = some d ∧
    (update_mru_docs_head (some d) l).tail.Sublist l ∧
    (d ∈ l → update_mru_docs_head (some d) l = d :: l.filter (fun x => x != d) ∧
      (update_mru_docs_head (some d) l).Perm l) ∧
    (d ∉ l → l.length = 20 → update_mru_docs_head (some d) l = d :: l.dropLast) ∧
    (d ∉ l → l.length < 20 → update_mru_docs_head (some d) l = d :: l) ∧
    update_mru_docs_head none l = l := by
  have htake := update_mru_docs_head_take d l hlen
  have hfilter : l.erase d = l.filter (fun x => x != d) := hnd.erase_eq_filter d
  have hle : (l.erase d).length ≤ l.length := List.length_erase_le d l
  simp only [MAX_MRU_DOCS] at htake
  refine ⟨by rw [htake, hfilter], by rw [htake]; rfl, ?_, ?_, ?_, ?_, rfl⟩
  · rw [htake]
    show ((l.erase d).take 19).Sublist l
    exact (List.take_sublist _ _).trans (List.erase_sublist d l)
  · intro hmem
    have hlt : (l.erase d).length + 1 = l.length := by
      rw [List.length_erase_of_mem hmem]
      have := List.length_pos_of_mem hmem
      omega
    have heq : update_mru_docs_head (some d) l = d :: l.erase d := by
      rw [htake, List.take_of_length_le]
      simp only [List.length_cons]
      omega
    exact ⟨by rw [heq, hfilter], by rw [heq]; exact (List.perm_cons_erase hmem).symm⟩
  · intro hmem hfull
    rw [htake, List.erase_of_not_mem hmem, List.dropLast_eq_take, hfull]
    rfl
  · intro hmem hlt
    rw [htake, List.erase_of_not_mem hmem, List.take_of_length_le]
    simp only [List.length_cons]
    omega

/-- C2 at concrete lists: activating 3 in `[1, 2, 3]` gives `[3, 1, 2]`, and
activating 21 in the full list `[1, ..., 20]` drops 20. -/
theorem update_mru_docs_head_moves_to_front_witness :
    update_mru_docs_head (some 3) [1, 2, 3] = [3, 1, 2] ∧
    update_mru_docs_head (some 21) (List.range' 1 20) = 21 :: List.range' 1 19 :=
  ⟨((update_mru_docs_head_moves_to_front [1, 2, 3] 3 (by decide) (by decide)).2.2.2.1
      (by decide)).1,
   (update_mru_docs_head_moves_to_front (List.range' 1 20) 21 (by decide) (by decide)).2.2.2.2.1
      (by decide) (by decide)⟩

/-- C3: in an MRU list of `n >= 1` valid documents (at most 20, as every MRU
list), from cursor 0, with or without a session in progress, `k >= 1`
consecutive calls of `notebook_switch_tablastused` (each with the tab-switch
notification it triggers) return and leave the cursor at `k mod n`, the
entry at index `k mod n` active, the session in progress and the MRU list
unchanged; so from `[a, b, c]` the three steps activate `b`, then `c`, then
`a`. -/
theorem cycle_steps_follow_mru_order (e : Env) (s : State) (k : Nat)
    (hne : s.mru_docs ≠ []) (hlen : s.mru_docs.length ≤ 20)
    (hvalid : ∀ d ∈ s.mru_docs, e.is_valid d = true)
    (hpos : s.mru_pos = 0) (hk : 1 ≤ k) :
    (∃ s1, cycle_steps e k s = .ok s1 ∧
      s1.mru_pos = k % s.mru_docs.length ∧
      s1.current = s.mru_docs[k % s.mru_docs.length]? ∧
      s1.switch_in_progress = true ∧
      s1.mru_docs = s.mru_docs) ∧
    (∀ a b c : Nat, s.mru_docs = [a, b, c] →
      (cycle_steps e 1 s).map (fun t => t.current) = .ok (some b) ∧
      (cycle_steps e 2 s).map (fun t => t.current) = .ok (some c) ∧
      (cycle_steps e 3 s).map (fun t => t.current) = .ok (some a)) := by
  have key := cycle_steps_all_valid e s hne hlen hvalid hpos
  refine ⟨?_, ?_⟩
  · obtain ⟨j, rfl⟩ : ∃ j, k = j + 1 := ⟨k - 1, by omega⟩
    exact key j
  · intro a b c habc
    obtain ⟨t1, h1, _, hc1, _, _⟩ := key 0
    obtain ⟨t2, h2, _, hc2, _, _⟩ := key 1
    obtain ⟨t3, h3, _, hc3, _, _⟩ := key 2
    rw [habc] at hc1 hc2 hc3
    rw [h1, h2, h3]
    exact ⟨congrArg Except.ok hc1, congrArg Except.ok hc2, congrArg Except.ok (by simpa using hc3)⟩

/-- C3 at the list `[1, 2, 3]`: the three steps activate 2, then 3, then 1. -/
theorem cycle_steps_follow_mru_order_witness :
    (cycle_steps env3 1 state123).map (fun t => t.current) = .ok (some 2) ∧
    (cycle_steps env3 2 state123).map (fun t => t.current) = .ok (some 3) ∧
    (cycle_steps env3 3 state123).map (fun t => t.current) = .ok (some 1) :=
  (cycle_steps_follow_mru_order env3 state123 1
    (by decide) (by decide) (fun _ _ => rfl) rfl (by decide)).2 1 2 3 rfl

/-- C4: a cycle step whose document at the incremented cursor is missing or
invalid resets the cursor to 0 and activates the head of the MRU list when
that head is valid; when the head is missing or invalid too, as in the empty
list, no tab switch occurs and the MRU list, the in-progress flag and the
overlay are as before the step. -/
theorem cycle_step_falls_back_to_head (e : Env) (s : State)
    (h : DOC_VALID e (g_queue_peek_nth s.mru_docs ((s.mru_pos + 1) % GUINT_RANGE)) = false) :
    (DOC_VALID e (g_queue_peek_nth s.mru_docs 0) = true →
      ∃ s1, notebook_switch_tablastused e s = .ok s1 ∧
        s1.mru_pos = 0 ∧ s1.current = s.mru_docs.head? ∧
        s1.switch_in_progress = true ∧ s1.mru_docs = s.mru_docs) ∧
    (DOC_VALID e (g_queue_peek_nth s.mru_docs 0) = false →
      notebook_switch_tablastused e s = .ok { s with mru_pos := 0 }) ∧
    (s.mru_docs = [] → notebook_switch_tablastused e s = .ok { s with mru_pos := 0 }) := by
  refine ⟨fun h0 => ?_, fun h0 => tablastused_none e s h h0, fun hnil => ?_⟩
  · have hq := peek_valid_ne_nil e _ _ h0
    have hpos : 0 < s.mru_docs.length := Nat.pos_of_ne_zero hq
    have hhead : g_queue_peek_nth s.mru_docs 0 = s.mru_docs.head? := by
      simp [g_queue_peek_nth, List.head?_eq_getElem?]
    rw [tablastused_head e s h h0, hhead]
    obtain ⟨s1, h1, hd, hp, hip, hc⟩ :=
      stepped_outcome e s 0 s.mru_docs.head? hpos (by decide)
    exact ⟨s1, h1, hp, hc, hip, hd⟩
  · exact tablastused_none e s h (by rw [hnil]; rfl)

/-- C4 at the list `[1, 2, 3]` with cursor 2: the step wraps to the head, 1. -/
theorem cycle_step_falls_back_to_head_witness :
    DOC_VALID env3 (g_queue_peek_nth state123_cycling.mru_docs 3) = false ∧
    ∃ s1, notebook_switch_tablastused env3 state123_cycling = .ok s1 ∧
      s1.mru_pos = 0 ∧ s1.current = some 1 ∧
      s1.switch_in_progress = true ∧ s1.mru_docs = [1, 2, 3] :=
  ⟨rfl, (cycle_step_falls_back_to_head env3 state123_cycling rfl).1 rfl⟩

/-- C5: during a session, the release of a Shift, Control, Meta, Alt, Super or
Hyper key clears the in-progress flag, removes the overlay, resets the cursor
to 0 and moves the active document to the front of the MRU list, the other
entries keeping their order; so the release after 2 cycle steps from
`[a, b, c]` leaves the list `[c, a, b]` with cursor 0. -/
theorem modifier_release_ends_session (s : State) (keyval : Nat)
    (hp : s.switch_in_progress = true)
    (hk : keyval ∈ [GDK_KEY_Shift_L, GDK_KEY_Shift_R, GDK_KEY_Control_L, GDK_KEY_Control_R,
      GDK_KEY_Meta_L, GDK_KEY_Meta_R, GDK_KEY_Alt_L, GDK_KEY_Alt_R,
      GDK_KEY_Super_L, GDK_KEY_Super_R, GDK_KEY_Hyper_L, GDK_KEY_Hyper_R]) :
    ((on_key_release_event keyval s).switch_in_progress = false ∧
      (on_key_release_event keyval s).switch_dialog = none ∧
      (on_key_release_event keyval s).mru_pos = 0 ∧
      (on_key_release_event keyval s).current = s.current ∧
      (on_key_release_event keyval s).mru_docs = update_mru_docs_head s.current s.mru_docs ∧
      (∀ d, s.current = some d →
        ∃ t, (on_key_release_event keyval s).mru_docs = d :: t ∧
          t.Sublist (s.mru_docs.erase d)) ∧
      (∀ d, s.current = some d → s.mru_docs.length ≤ 20 →
        (on_key_release_event keyval s).mru_docs = (d :: s.mru_docs.erase d).take 20)) ∧
    (∀ (e : Env) (t : State) (a b c : Nat), t.mru_docs = [a, b, c] → [a, b, c].Nodup →
      e.is_valid a = true → e.is_valid b = true → e.is_valid c = true → t.mru_pos = 0 →
      ∃ t2, cycle_steps e 2 t = .ok t2 ∧
        (on_key_release_event keyval t2).mru_docs = [c, a, b] ∧
        (on_key_release_event keyval t2).mru_pos = 0) := by
  have hmod : is_modifier_key keyval = true := by
    simp only [List.mem_cons, List.mem_singleton, List.not_mem_nil, or_false] at hk
    rcases hk with h | h | h | h | h | h | h | h | h | h | h | h <;> rw [h] <;> rfl
  refine ⟨?_, ?_⟩
  · rw [on_key_release_event_eq keyval s hp hmod]
    refine ⟨rfl, rfl, rfl, rfl, rfl, fun d hd => ?_, fun d hd hlen => ?_⟩
    · simp only [hd]
      exact update_mru_docs_head_shape d s.mru_docs
    · simp only [hd]
      exact update_mru_docs_head_take d s.mru_docs hlen
  · intro e t a b c habc hnd ha hb hc hpos
    have hvalid : ∀ d ∈ t.mru_docs, e.is_valid d = true := by
      intro d hd
      rw [habc] at hd
      simp only [List.mem_cons, List.mem_singleton, List.not_mem_nil, or_false] at hd
      rcases hd with h | h | h <;> rw [h] <;> assumption
    obtain ⟨t2, h2, _, hcur, hip, hdocs⟩ :=
      cycle_steps_all_valid e t (by rw [habc]; simp) (by rw [habc]; simp [MAX_MRU_DOCS])
        hvalid hpos 1
    rw [habc] at hcur
    have hcur2 : t2.current = some c := by simpa using hcur
    refine ⟨t2, h2, ?_, ?_⟩
    · rw [on_key_release_event_eq keyval t2 hip hmod]
      simp only [hcur2, hdocs, habc]
      have hac : a ≠ c := by
        intro h; subst h; simp at hnd
      have hbc : b ≠ c := by
        intro h; subst h; simp at hnd
      simp [update_mru_docs_head_some, List.erase_cons, hac, hbc, MAX_MRU_DOCS]
    · rw [on_key_release_event_eq keyval t2 hip hmod]

/-- C5 at the list `[1, 2, 3]` after two cycle steps: the release of the left
Control key leaves the list `[3, 1, 2]`, cursor 0, no overlay, no session. -/
theorem modifier_release_ends_session_witness :
    cycle_steps env3 2 state123 = .ok state123_cycling ∧
    on_key_release_event GDK_KEY_Control_L state123_cycling =
      { mru_docs := [3, 1, 2], mru_pos := 0, switch_in_progress := false,
        switch_dialog := none, current := some 3 } ∧
    (on_key_release_event GDK_KEY_Control_L state123_cycling).mru_docs =
      (3 :: [1, 2, 3].erase 3).take 20 :=
  ⟨rfl, rfl,
   (modifier_release_ends_session state123_cycling GDK_KEY_Control_L rfl
      (by decide)).1.2.2.2.2.2.2 3 rfl (by decide)⟩

/-- C6: the close notification `on_document_close(doc)` leaves the MRU list
(a) unchanged when the application is quitting, (b) empty when it is not
quitting and the notebook has two pages, so that one document remains open,
and (c) otherwise equal to the old list with `doc` removed, the other entries
in their old order. -/
theorem on_document_close_updates_mru (e : Env) (doc : DocPtr) (s : State) :
    (e.quitting = true → on_document_close e doc s = s) ∧
    (e.quitting = false → e.n_pages = 2 →
      on_document_close e doc s = { s with mru_docs := [] }) ∧
    (e.quitting = false → e.n_pages ≠ 2 →
      on_document_close e doc s = { s with mru_docs := g_queue_remove s.mru_docs doc } ∧
      (doc = none → (on_document_close e doc s).mru_docs = s.mru_docs) ∧
      (∀ d, doc = some d →
        (on_document_close e doc s).mru_docs = s.mru_docs.erase d ∧
        (on_document_close e doc s).mru_docs.Sublist s.mru_docs ∧
        (s.mru_docs.Nodup →
          (on_document_close e doc s).mru_docs = s.mru_docs.filter (fun x => x != d) ∧
          d ∉ (on_document_close e doc s).mru_docs))) := by
  refine ⟨fun hq => ?_, fun hq hn => ?_, fun hq hn => ?_⟩
  · simp [on_document_close, hq]
  · simp [on_document_close, hq, hn, g_queue_clear]
  · have heq : on_document_close e doc s =
        { s with mru_docs := g_queue_remove s.mru_docs doc } := by
      simp [on_document_close, hq, hn]
    rw [heq]
    refine ⟨rfl, fun hd => by rw [hd]; rfl, fun d hd => ?_⟩
    rw [hd]
    refine ⟨rfl, List.erase_sublist d s.mru_docs, fun hnd => ?_⟩
    exact ⟨hnd.erase_eq_filter d, fun hmem => (hnd.mem_erase_iff.mp hmem).1 rfl⟩

/-- C6 at the list `[1, 2, 3]`: closing 2 leaves `[1, 3]` with three pages,
the empty list with two pages, and `[1, 2, 3]` while quitting. -/
theorem on_document_close_updates_mru_witness :
    (on_document_close env3 (some 2) state123).mru_docs = [1, 3] ∧
    (on_document_close env2 (some 2) state123).mru_docs = [] ∧
    (on_document_close env_quitting (some 2) state123).mru_docs = [1, 2, 3] :=
  ⟨(((on_document_close_updates_mru env3 (some 2) state123).2.2 rfl (by decide)).2.2
      2 rfl).1,
   congrArg State.mru_docs ((on_document_close_updates_mru env2 (some 2) state123).2.1 rfl rfl),
   congrArg State.mru_docs ((on_document_close_updates_mru env_quitting (some 2) state123).1 rfl)⟩

/-- C7 fails: with two documents open, a tab switch from 1 to 2, a cycle step
and the close of document 2 lead to a session in progress with an empty MRU
list; the next cycle step finds no valid target, and afterwards
`notebook_switch_in_progress()` still returns true. -/
theorem flag_survives_invalid_target_counterexample :
    Reachable state_cleared_cycling ∧
    DOC_VALID env2 (g_queue_peek_nth state_cleared_cycling.mru_docs
      ((state_cleared_cycling.mru_pos + 1) % GUINT_RANGE)) = false ∧
    DOC_VALID env2 (g_queue_peek_nth state_cleared_cycling.mru_docs 0) = false ∧
    (notebook_switch_tablastused env2 state_cleared_cycling).map notebook_switch_in_progress
      = .ok true :=
  ⟨Reachable.step (.document_close env2 (some 2))
      (Reachable.step (.cycle_step env2)
        (Reachable.step (.tab_switch env2 (some 2)) (Reachable.init (some 1)) rfl) rfl) rfl,
   rfl, rfl, rfl⟩

/-- C7, amended: a cycle step that finds no valid target document, neither at
the incremented cursor nor at the head of the MRU list, returns and leaves the
in-progress flag as it was: `notebook_switch_in_progress()` returns false after
the step when no session was in progress before it, and true when one was. -/
theorem invalid_target_keeps_flag (e : Env) (s : State)
    (h : DOC_VALID e (g_queue_peek_nth s.mru_docs ((s.mru_pos + 1) % GUINT_RANGE)) = false)
    (h0 : DOC_VALID e (g_queue_peek_nth s.mru_docs 0) = false) :
    ∃ s1, notebook_switch_tablastused e s = .ok s1 ∧
      notebook_switch_in_progress s1 = notebook_switch_in_progress s ∧
      (notebook_switch_in_progress s = false → notebook_switch_in_progress s1 = false) ∧
      (notebook_switch_in_progress s = true → notebook_switch_in_progress s1 = true) :=
  ⟨{ s with mru_pos := 0 }, tablastused_none e s h h0, rfl, fun hs => hs, fun hs => hs⟩

/-- C7 as amended, at the initial state: a cycle step in the empty MRU list
leaves the in-progress flag false. -/
theorem invalid_target_keeps_flag_witness :
    ∃ s1, notebook_switch_tablastused env2 (notebook_init none) = .ok s1 ∧
      notebook_switch_in_progress s1 = notebook_switch_in_progress (notebook_init none) ∧
      (notebook_switch_in_progress (notebook_init none) = false →
        notebook_switch_in_progress s1 = false) ∧
      (notebook_switch_in_progress (notebook_init none) = true →
        notebook_switch_in_progress s1 = true) :=
  invalid_target_keeps_flag env2 (notebook_init none) rfl rfl

/-- C8: in every state reachable from the initial state by cycle steps, key
releases of any key, timer expiries, tab switches and document closes, the
overlay exists only while a session is in progress; and a timer expiry that
arrives after the session ended, or while an overlay exists, changes
nothing. -/
theorem overlay_only_while_cycling :
    (∀ s : State, Reachable s →
      (s.switch_dialog.isSome = true → notebook_switch_in_progress s = true) ∧
      (notebook_switch_in_progress s = false → s.switch_dialog = none)) ∧
    (∀ (e : Env) (s : State),
      notebook_switch_in_progress s = false ∨ s.switch_dialog.isSome = true →
      on_switch_timeout e s = .ok s) := by
  refine ⟨fun s hs => ?_, fun e s h => ?_⟩
  · have hinv := (TrackerInv_reachable s hs).2.1
    refine ⟨hinv, fun hidle => ?_⟩
    cases hd : s.switch_dialog with
    | none => rfl
    | some m =>
      rw [hd] at hinv
      have := hinv rfl
      simp only [notebook_switch_in_progress] at hidle
      rw [hidle] at this
      cases this
  · simp only [notebook_switch_in_progress] at h
    rcases h with h | h <;> simp [on_switch_timeout, h]

/-- C8 at concrete states: the reachable state after two cycle steps has an
overlay and a session in progress; a timer expiry there, and one in the
initial state, change nothing. -/
theorem overlay_only_while_cycling_witness :
    Reachable state123_cycling ∧
    (state123_cycling.switch_dialog.isSome = true ∧
      notebook_switch_in_progress state123_cycling = true) ∧
    on_switch_timeout env3 state123_cycling = .ok state123_cycling ∧
    on_switch_timeout env3 (notebook_init none) = .ok (notebook_init none) :=
  have hr : Reachable state123_cycling :=
    Reachable.step (.cycle_step env3)
      (Reachable.step (.cycle_step env3)
        (Reachable.step (.tab_switch env3 (some 1))
          (Reachable.step (.tab_switch env3 (some 2))
            (Reachable.step (.tab_switch env3 (some 3)) (Reachable.init none) rfl) rfl) rfl)
        rfl) rfl
  ⟨hr, ⟨rfl, (overlay_only_while_cycling.1 state123_cycling hr).1 rfl⟩,
   overlay_only_while_cycling.2 env3 state123_cycling (Or.inr rfl),
   overlay_only_while_cycling.2 env3 (notebook_init none) (Or.inl rfl)⟩

/-- C9: in every state reachable from the initial state by cycle steps, key
releases of any key, timer expiries, tab switches and document closes, the
cursor is 0 whenever no session is in progress; hence the first step of a new
session looks at offset 1 of the MRU list. -/
theorem cursor_zero_when_idle :
    (∀ s : State, Reachable s → notebook_switch_in_progress s = false → s.mru_pos = 0) ∧
    (∀ (e : Env) (s : State), Reachable s → notebook_switch_in_progress s = false →
      (s.mru_pos + 1) % GUINT_RANGE = 1 ∧
      (DOC_VALID e (g_queue_peek_nth s.mru_docs 1) = true →
        notebook_switch_tablastused e s =
          .ok { s with mru_pos := 1, switch_in_progress := true,
                       current := g_queue_peek_nth s.mru_docs 1 })) := by
  have hzero : ∀ s : State, Reachable s → notebook_switch_in_progress s = false →
      s.mru_pos = 0 := fun s hs hidle => (TrackerInv_reachable s hs).2.2 hidle
  refine ⟨hzero, fun e s hs hidle => ?_⟩
  have hp := hzero s hs hidle
  have h1 : (s.mru_pos + 1) % GUINT_RANGE = 1 := by rw [hp]; rfl
  refine ⟨h1, fun hv => ?_⟩
  rw [← h1] at hv
  simp only [notebook_switch_in_progress] at hidle
  rw [tablastused_next e s hv, h1, if_pos hidle]
  rfl

/-- C9 at the reachable idle state with the list `[1, 2, 3]`: the cursor is 0
and the first cycle step moves it to 1 and activates document 2. -/
theorem cursor_zero_when_idle_witness :
    Reachable state123 ∧ state123.mru_pos = 0 ∧
    notebook_switch_tablastused env3 state123 =
      .ok { mru_docs := [1, 2, 3], mru_pos := 1, switch_in_progress := true,
            switch_dialog := none, current := some 2 } :=
  ⟨state123_reachable, cursor_zero_when_idle.1 state123 state123_reachable rfl,
   (cursor_zero_when_idle.2 env3 state123 state123_reachable rfl).2 rfl⟩

/-- C10: for a non-empty duplicate-free MRU list `l` of length `n` (at most
20, as every MRU list) and a cursor `p < n`, `update_filename_label` returns
and sets the overlay text to the markup of exactly `min 4 n` documents: those
at the positions `p`, `p + 1`, ... modulo `n`, in that order, the first in
bold and each later one on a line of its own, no document twice. -/
theorem update_filename_label_lists_candidates (e : Env) (s : State)
    (hne : s.mru_docs ≠ []) (hnd : s.mru_docs.Nodup) (hlen : s.mru_docs.length ≤ 20)
    (hp : s.mru_pos < s.mru_docs.length) :
    update_filename_label e s =
      .ok { s with
        switch_dialog := some (overlay_markup e (overlay_candidates s.mru_docs s.mru_pos)) } ∧
    (overlay_candidates s.mru_docs s.mru_pos).length = min 4 s.mru_docs.length ∧
    (∀ j, j < min 4 s.mru_docs.length →
      (overlay_candidates s.mru_docs s.mru_pos)[j]? =
        s.mru_docs[(s.mru_pos + j) % s.mru_docs.length]?) ∧
    (overlay_candidates s.mru_docs s.mru_pos).Nodup := by
  have hn : 0 < s.mru_docs.length := List.length_pos.mpr hne
  have hW : GUINT_RANGE = 4294967296 := rfl
  have hmap := overlay_candidates_eq_map s.mru_docs s.mru_pos hne
  refine ⟨update_filename_label_inside e s hp (by omega), ?_, ?_, ?_⟩
  · rw [hmap, List.length_map, List.length_range]
  · intro j hj
    have hlt : (s.mru_pos + j) % s.mru_docs.length < s.mru_docs.length := Nat.mod_lt _ hn
    rw [hmap, List.getElem?_map, List.getElem?_range hj]
    simp [List.getD_eq_getElem?_getD, List.getElem?_eq_getElem hlt]
  · rw [hmap]
    refine List.Nodup.map_on ?_ (List.nodup_range _)
    intro j1 hj1 j2 hj2 heq
    rw [List.mem_range] at hj1 hj2
    have hlt1 : (s.mru_pos + j1) % s.mru_docs.length < s.mru_docs.length := Nat.mod_lt _ hn
    have hlt2 : (s.mru_pos + j2) % s.mru_docs.length < s.mru_docs.length := Nat.mod_lt _ hn
    rw [List.getD_eq_getElem _ _ hlt1, List.getD_eq_getElem _ _ hlt2] at heq
    have hidx := (List.Nodup.getElem_inj_iff hnd).mp heq
    exact add_mod_inj s.mru_pos s.mru_docs.length j1 j2 (by omega) (by omega) hidx

/-- C10 at a list of six documents with cursor 4: the overlay lists 5, 6, 1
and 2; and at the list `[1, 2, 3]` with cursor 2 it lists 3, 1 and 2. -/
theorem update_filename_label_lists_candidates_witness :
    update_filename_label env_changed state_six =
      .ok { state_six with
        switch_dialog := some "<b>5</b>\n6\n1\n<span color=\x27red\x27>2</span>" } ∧
    overlay_candidates state_six.mru_docs state_six.mru_pos = [5, 6, 1, 2] ∧
    update_filename_label env3 state123_cycling = .ok state123_cycling ∧
    overlay_candidates state123_cycling.mru_docs state123_cycling.mru_pos = [3, 1, 2] :=
  ⟨(update_filename_label_lists_candidates env_changed state_six
      (by decide) (by decide) (by decide) (by decide)).1,
   rfl,
   (update_filename_label_lists_candidates env3 state123_cycling
      (by decide) (by decide) (by decide) (by decide)).1,
   rfl⟩

/-- C11: a tab switch to the document `n`, notified while the MRU list is
empty, the notebook has two pages and no session is in progress, records the
previously active document `p` as well: for `p` not null and different from
`n` the MRU list becomes `[n, p]`; every other tab switch to a document `n`
outside a session records `n` alone, as `update_mru_docs_head(n)` does. -/
theorem switch_page_records_previous_document (e : Env) (new : DocPtr) (s : State)
    (hidle : s.switch_in_progress = false) :
    (∀ p n : Nat, s.mru_docs = [] → e.n_pages = 2 → s.current = some p → new = some n →
      p ≠ n → on_notebook_switch_page e new s = { s with mru_docs := [n, p] }) ∧
    (∀ n : Nat, new = some n →
      ¬ (s.mru_docs = [] ∧ e.n_pages = 2 ∧ ∃ p, s.current = some p ∧ p ≠ n) →
      on_notebook_switch_page e new s =
        { s with mru_docs := update_mru_docs_head (some n) s.mru_docs }) := by
  obtain ⟨q, pos, ip, d, c⟩ := s
  simp only at hidle
  subst hidle
  refine ⟨fun p n hq hn hc hnew hpn => ?_, fun n hnew hother => ?_⟩
  · simp only at hq hc
    subst hq hc hnew
    simp [on_notebook_switch_page, g_queue_get_length, hn, update_mru_docs_head,
      g_queue_remove, g_queue_push_head, MAX_MRU_DOCS, List.erase_cons, hpn]
  · subst hnew
    by_cases hcond : q = [] ∧ e.n_pages = 2
    · obtain ⟨hq, hn⟩ := hcond
      subst hq
      cases c with
      | none =>
        simp [on_notebook_switch_page, g_queue_get_length, hn, update_mru_docs_head]
      | some p =>
        have hpn : p = n := by
          by_contra hne
          exact hother ⟨rfl, hn, p, rfl, hne⟩
        subst hpn
        simp [on_notebook_switch_page, g_queue_get_length, hn, update_mru_docs_head,
          g_queue_remove, g_queue_push_head, MAX_MRU_DOCS]
    · have hfalse : (g_queue_get_length q == 0 && e.n_pages == 2) = false := by
        rw [Bool.and_eq_false_iff]
        by_cases hq : q = []
        · right
          have : e.n_pages ≠ 2 := fun h => hcond ⟨hq, h⟩
          simpa using this
        · left
          simpa [g_queue_get_length] using hq
      simp [on_notebook_switch_page, hfalse]

/-- C11 at concrete states: with two pages and an empty list the switch to 2
records `[2, 1]`; with three pages the switch to 3 in `[1, 2, 3]` records 3
alone. -/
theorem switch_page_records_previous_document_witness :
    on_notebook_switch_page env2 (some 2) state_one_open =
      { state_one_open with mru_docs := [2, 1] } ∧
    on_notebook_switch_page env3 (some 3) state123 =
      { state123 with mru_docs := update_mru_docs_head (some 3) [1, 2, 3] } ∧
    update_mru_docs_head (some 3) [1, 2, 3] = [3, 1, 2] :=
  ⟨(switch_page_records_previous_document env2 (some 2) state_one_open rfl).1
      1 2 rfl rfl rfl rfl (by decide),
   (switch_page_records_previous_document env3 (some 3) state123 rfl).2
      3 rfl (by decide),
   rfl⟩

/-- C12 fails in the code: with the documents 1 and 2 open, a tab switch from
1 to 2, a cycle step (which starts a session and sets the timer) and the close
of document 2 (which clears the MRU list, the notebook having two pages) lead
to a session in progress with an empty MRU list and no overlay; the timer
expiry then runs `update_filename_label`, whose loop computes
`i % queue_length` with `queue_length` 0. -/
theorem timer_expiry_divides_by_zero_after_close :
    run (notebook_init (some 1))
      [.tab_switch env2 (some 2), .cycle_step env2, .document_close env2 (some 2)]
      = .ok state_cleared_cycling ∧
    Reachable state_cleared_cycling ∧
    state_cleared_cycling.mru_docs = [] ∧
    on_switch_timeout env1 state_cleared_cycling = .error .div_by_zero ∧
    run (notebook_init (some 1))
      [.tab_switch env2 (some 2), .cycle_step env2, .document_close env2 (some 2),
       .timer_expiry env1]
      = .error .div_by_zero :=
  ⟨rfl,
   run_reachable
     [.tab_switch env2 (some 2), .cycle_step env2, .document_close env2 (some 2)]
     _ _ (Reachable.init (some 1)) rfl,
   rfl, rfl, rfl⟩

/-- C13 fails in the code: in the notebook with the tabs of the documents 1, 2
and 3, the last one current, closing the documents to the right of document 1
when the close of document 3 does not go through removes the tab of document
2 and keeps that of document 3, yet makes the tab of document 1 current: the
originally current tab has not been closed and is no longer current. -/
theorem close_right_leaves_surviving_current_tab :
    has_tabs_on_right tabs123 (some 1) = true ∧
    document_get_from_page tabs123 (gtk_notebook_get_current_page tabs123) = some 3 ∧
    close_all_but_3.confirms 3 = false ∧
    on_close_documents_right_activate close_all_but_3 (some 1) tabs123 =
      some { pages := [1, 3], current := 0 } ∧
    document_get_notebook_page { pages := [1, 3], current := 0 } (some 3) = 1 ∧
    document_get_from_page { pages := [1, 3], current := 0 } 0 = some 1 := by
  decide

end Notebook
